import Mathlib

/-!
Verification development for the remuir register-machine emulator.

The definitions below are a shallow embedding of the Rust sources:
`src/memory.rs` (Register, Memory), `src/vecmap.rs` (VecMap),
`src/instruction.rs` (Instruction), `src/machine.rs` (Identifier, Line,
Machine) and the undo machinery of `src/tui.rs`.  Machine integers
(`u128`, `usize`) are modelled as `Nat`; `u128::MAX` is `2 ^ 128 - 1`.
Rust panics (`unwrap`, `expect`, `unreachable!`, out-of-bounds indexing)
are modelled by explicit `panic`/`none` outcomes.
-/

namespace Remuir

/-- The value of `u128::MAX` as a natural number. -/
def U128MAX : Nat := 2 ^ 128 - 1

/-- A register (`Register` in `memory.rs`): little-endian digits in base
`2 ^ 128`. -/
abbrev Register := List Nat

namespace Register

/-- `Register::inc` from `memory.rs`: every `u128::MAX` digit is set to `0`
until the first digit below the maximum, which is incremented and the scan
stops; if no digit was incremented a new digit `1` is pushed. -/
def inc : Register → Register
  | [] => [1]
  | d :: ds => if d = U128MAX then 0 :: inc ds else (d + 1) :: ds

/-- The borrow scan of `Register::dec` from `memory.rs`: each `0` digit is
set to `u128::MAX` until the first nonzero digit, which is decremented; the
boolean is the `decreased` flag. -/
def decCore : Register → Register × Bool
  | [] => ([], false)
  | d :: ds =>
    if d = 0 then
      let r := decCore ds
      (U128MAX :: r.1, r.2)
    else ((d - 1) :: ds, true)

/-- `Register::dec` from `memory.rs`: after the borrow scan, if a digit was
decreased and the most significant digit is now `0`, it is popped. -/
def dec (l : Register) : Register :=
  let r := decCore l
  if r.2 ∧ r.1.getLast? = some 0 then r.1.dropLast else r.1

/-- `Register::is_zero` from `memory.rs`. -/
def isZero (l : Register) : Bool :=
  l.isEmpty || (l.length == 1 && l.getD 0 0 == 0)

/-- Each digit is a genuine `u128` value. -/
def valid (l : Register) : Prop := ∀ d ∈ l, d < 2 ^ 128

instance (l : Register) : Decidable (valid l) := by
  unfold valid; infer_instance

/-- The numeric value represented by a little-endian digit list. -/
def val (l : Register) : Nat := l.foldr (fun d acc => d + 2 ^ 128 * acc) 0

end Register

/-- `RegisterNumber` from `memory.rs`. -/
inductive RegisterNumber where
  | negative (n : Nat)
  | natural (n : Nat)
  deriving DecidableEq, Repr

/-- The index carried by a `RegisterNumber`. -/
def RegisterNumber.index : RegisterNumber → Nat
  | .natural n => n
  | .negative n => n

/-- `Memory` from `memory.rs`. -/
structure Memory where
  natRegisters : List Register
  negRegisters : List Register
  deriving DecidableEq, Repr

namespace Memory

/-- `Memory::new_from_slice`. -/
def newFromSlice (regs : List Register) : Memory := ⟨regs, []⟩

/-- The backing sequence of the namespace a `RegisterNumber` selects. -/
def backing (m : Memory) : RegisterNumber → List Register
  | .natural _ => m.natRegisters
  | .negative _ => m.negRegisters

/-- `Memory::create_new_registers` from `memory.rs`: push zero registers
(`Register::from(0)`, i.e. `[0]`) until the namespace has length `to`. -/
def createNewRegisters (m : Memory) (upTo : RegisterNumber) : Memory :=
  match upTo with
  | .natural n =>
    { m with natRegisters :=
        m.natRegisters ++ List.replicate (n - m.natRegisters.length) [0] }
  | .negative n =>
    { m with negRegisters :=
        m.negRegisters ++ List.replicate (n - m.negRegisters.length) [0] }

/-- `Memory::inc` from `memory.rs`. -/
def inc (m : Memory) (r : RegisterNumber) : Memory :=
  match r with
  | .natural n =>
    if m.natRegisters.length ≤ n then
      let m1 := m.createNewRegisters (.natural n)
      { m1 with natRegisters := m1.natRegisters ++ [[1]] }
    else
      { m with natRegisters :=
          m.natRegisters.set n (Register.inc (m.natRegisters.getD n [])) }
  | .negative n =>
    if m.negRegisters.length ≤ n then
      let m1 := m.createNewRegisters (.negative n)
      { m1 with negRegisters := m1.negRegisters ++ [[1]] }
    else
      { m with negRegisters :=
          m.negRegisters.set n (Register.inc (m.negRegisters.getD n [])) }

/-- `Memory::dec` from `memory.rs`; `none` models the panic of indexing a
register that does not exist. -/
def dec (m : Memory) (r : RegisterNumber) : Option Memory :=
  match r with
  | .natural n =>
    match m.natRegisters[n]? with
    | some reg => some { m with natRegisters := m.natRegisters.set n (Register.dec reg) }
    | none => none
  | .negative n =>
    match m.negRegisters[n]? with
    | some reg => some { m with negRegisters := m.negRegisters.set n (Register.dec reg) }
    | none => none

/-- `Memory::is_zero` from `memory.rs`: the answer together with the
(possibly extended) memory, since probing an unallocated index allocates
zero registers up to and including it. -/
def isZero (m : Memory) (r : RegisterNumber) : Bool × Memory :=
  match r with
  | .natural n =>
    match m.natRegisters[n]? with
    | some reg => (if reg.length ≤ 1 then Register.isZero reg else false, m)
    | none => (true, m.createNewRegisters (.natural (n + 1)))
  | .negative n =>
    match m.negRegisters[n]? with
    | some reg => (if reg.length ≤ 1 then Register.isZero reg else false, m)
    | none => (true, m.createNewRegisters (.negative (n + 1)))

end Memory

/-- `Identifier` from `machine.rs`. -/
inductive Identifier where
  | label (s : String)
  | line (n : Nat)
  | halt
  deriving DecidableEq, Repr

/-- `Instruction` from `instruction.rs`. -/
inductive Instruction where
  | INC (r : RegisterNumber)
  | DECJZ (r : RegisterNumber) (target : Identifier)
  deriving DecidableEq, Repr

/-- `Instruction::execute` from `instruction.rs`: the optional jump target
together with the mutated memory; the outer `none` models the panic of
`Memory::dec` when the register does not exist. -/
def Instruction.execute (i : Instruction) (mem : Memory) :
    Option (Option Identifier × Memory) :=
  match i with
  | .INC r => some (none, mem.inc r)
  | .DECJZ r target =>
    let z := mem.isZero r
    if z.1 then some (some target, z.2)
    else
      match z.2.dec r with
      | some mem1 => some (none, mem1)
      | none => none

/-- `Line` from `machine.rs`. -/
structure Line where
  lineNumber : Nat
  id : Option Identifier
  instruction : Instruction
  deriving DecidableEq, Repr

/-- `MachineEditError` from `machine.rs`. -/
inductive MachineEditError where
  | labelAlreadyExists (label : String) (line : Nat)
  | labelNotFound (label : String)
  | lineNumberTooBig (lineNum : Nat) (lastLine : Nat)
  deriving DecidableEq, Repr

/-- `TerminationReason` from `machine.rs`. -/
inductive TerminationReason where
  | breakpoint
  | empty
  | halted
  deriving DecidableEq, Repr

/-- The backing list of a `VecMap<String, usize>` from `vecmap.rs`. -/
abbrev LabelMap := List (String × Nat)

/-- `VecMap::get` from `vecmap.rs`: the value at the first matching key. -/
def vmGet (m : LabelMap) (key : String) : Option Nat :=
  match m with
  | [] => none
  | p :: ps => if p.1 = key then some p.2 else vmGet ps key

/-- `VecMap::update` from `vecmap.rs`: overwrite the value at the first
matching key, or push the pair at the end. -/
def vmUpdate (m : LabelMap) (key : String) (value : Nat) : LabelMap :=
  match m with
  | [] => [(key, value)]
  | p :: ps => if p.1 = key then (p.1, value) :: ps else p :: vmUpdate ps key value

/-- `Machine` from `machine.rs`. -/
structure Machine where
  lines : List Line
  currentLine : Nat
  initialMemory : Memory
  memory : Memory
  labels : LabelMap
  breakpoints : List Nat
  deriving DecidableEq, Repr

namespace Machine

/-- The first loop of `Machine::new_from_lines`: record every declared label
into the label map via `VecMap::update`. -/
def recordLabel (acc : LabelMap) (l : Line) : LabelMap :=
  match l.id with
  | some (.label s) => vmUpdate acc s l.lineNumber
  | _ => acc

/-- The label map built by the first loop of `Machine::new_from_lines`. -/
def buildLabels (lines : List Line) : LabelMap :=
  lines.foldl recordLabel []

/-- The body of the second loop of `Machine::new_from_lines`: for a line
whose instruction is a `DECJZ` on a label known to the map, call
`Line::change_id` with the resolved line number (which replaces the line's
`id` field). -/
def resolvePass (labels : LabelMap) (l : Line) : Line :=
  match l.instruction with
  | .DECJZ _ (.label s) =>
    match vmGet labels s with
    | some n => { l with id := some (.line n) }
    | none => l
  | _ => l

/-- `Machine::new_from_lines` from `machine.rs`. -/
def newFromLines (linesSlice : List Line) (memory : Memory) : Machine :=
  let labelsMap := buildLabels linesSlice
  let linesVec := linesSlice.map (resolvePass labelsMap)
  { lines := linesVec
    currentLine := 0
    initialMemory := memory
    memory := memory
    labels := labelsMap
    breakpoints := [] }

/-- `Machine::go_to_identifier` from `machine.rs`, with the comparison of
the `Line` branch exactly as in the source. -/
def goToIdentifier (m : Machine) (id : Identifier) :
    Except MachineEditError Machine :=
  match id with
  | .halt => .ok { m with currentLine := m.lines.length + 1 }
  | .line n =>
    if m.lines.length < n then .ok { m with currentLine := n }
    else .error (.lineNumberTooBig n (m.lines.length - 1))
  | .label s =>
    match vmGet m.labels s with
    | some n => .ok { m with currentLine := n }
    | none => .error (.labelNotFound s)

/-- Result of `Machine::toggle_breakpoint`, with an explicit case for the
aborts (`unreachable!` on `Halt`, `Vec::remove` with an out-of-range
index). -/
inductive ToggleResult where
  | panic
  | ok (m : Machine)
  | err (e : MachineEditError)
  deriving DecidableEq, Repr

/-- `Vec::remove(i)`: removes the element at index `i`; `none` models the
panic when `i` is out of bounds. -/
def vecRemove (l : List Nat) (i : Nat) : Option (List Nat) :=
  if i < l.length then some (l.eraseIdx i) else none

/-- The contains/remove-or-push body shared by the `Label` and `Line`
branches of `Machine::toggle_breakpoint` (note: `Vec::remove` takes an
index, and is here applied to the resolved line number `n`). -/
def toggleAt (m : Machine) (n : Nat) : ToggleResult :=
  if m.breakpoints.contains n then
    match vecRemove m.breakpoints n with
    | some bps => .ok { m with breakpoints := bps }
    | none => .panic
  else .ok { m with breakpoints := m.breakpoints ++ [n] }

/-- `Machine::toggle_breakpoint` from `machine.rs`. -/
def toggleBreakpoint (m : Machine) (id : Identifier) : ToggleResult :=
  match id with
  | .label s =>
    match vmGet m.labels s with
    | some n => toggleAt m n
    | none => .err (.labelNotFound s)
  | .line n =>
    if (m.lines[n]?).isNone then .err (.lineNumberTooBig n m.lines.length)
    else toggleAt m n
  | .halt => .panic

/-- Result of `Machine::step`: `panic` models the `unwrap` applied to
`go_to_identifier` and the indexing panic inside `Memory::dec`. -/
inductive StepResult where
  | panic
  | errHalted
  | ok (r : Option TerminationReason) (m : Machine)
  deriving DecidableEq, Repr

/-- The final halt check of `Machine::step`. -/
def stepHaltCheck (m : Machine) : StepResult :=
  if m.lines.length ≤ m.currentLine then .ok (some .halted) m else .ok none m

/-- `Machine::step` from `machine.rs`. -/
def step (m : Machine) : StepResult :=
  match m.lines[m.currentLine]? with
  | none => .errHalted
  | some l =>
    match l.instruction.execute m.memory with
    | none => .panic
    | some (some ident, mem1) =>
      match goToIdentifier { m with memory := mem1 } ident with
      | .ok m1 => stepHaltCheck m1
      | .error _ => .panic
    | some (none, mem1) =>
      stepHaltCheck { m with memory := mem1, currentLine := m.currentLine + 1 }

end Machine

/-! Model of the undo machinery of `tui.rs`. -/

/-- The payload of `Mode::Debug` from `tui.rs`. -/
structure DebugMode where
  previousLine : Option Nat
  previousMemory : Option Memory
  deriving DecidableEq, Repr

/-- The `CannotUndo` variant of `RemuirError` from `tui.rs`. -/
inductive RemuirError where
  | cannotUndo
  deriving DecidableEq, Repr

/-- `Mode::get_previous` from `tui.rs` (debug mode): `CannotUndo` when
either slot is `None`, otherwise both unwrapped. -/
def getPrevious (md : DebugMode) : Except RemuirError (Nat × Memory) :=
  match md.previousLine, md.previousMemory with
  | some l, some mem => .ok (l, mem)
  | _, _ => .error .cannotUndo

/-- `Mode::set_previous` from `tui.rs` (debug mode). -/
def setPrevious (_md : DebugMode) (newLine : Nat) (newMemory : Memory) : DebugMode :=
  ⟨some newLine, some newMemory⟩

/-- Outcome of the `"undo"` branch of `tui::command`. -/
inductive UndoOutcome where
  | panic
  | cannotUndo
  | ok (m : Machine)
  deriving DecidableEq, Repr

/-- The `"undo"` branch of `tui::command` (debug mode): fetch the recorded
previous state (printing `CannotUndo` when absent), call
`go_to_identifier` on `Line(previous_line)` — the `expect` on its result is
a panic — then `replace_memory`.  The mode's record is not modified. -/
def undoCommand (m : Machine) (md : DebugMode) : UndoOutcome :=
  match getPrevious md with
  | .error _ => .cannotUndo
  | .ok (previousLine, previousMemory) =>
    match m.goToIdentifier (.line previousLine) with
    | .error _ => .panic
    | .ok m1 => .ok { m1 with memory := previousMemory }

/-- The `"step"` branch of `tui::command` (debug mode): record the current
line and memory via `set_previous`, then call `Machine::step`. -/
def stepCommand (m : Machine) (md : DebugMode) : Machine.StepResult × DebugMode :=
  let md1 := setPrevious md m.currentLine m.memory
  (m.step, md1)

/-! Concrete inputs used by the theorems below. -/

/-- A machine with a single `inc r0` line and no registers. -/
def mOneInc : Machine :=
  Machine.newFromLines [⟨0, none, .INC (.natural 0)⟩] ⟨[], []⟩

/-- A machine with two `inc r0` lines and no registers. -/
def mTwoInc : Machine :=
  Machine.newFromLines
    [⟨0, none, .INC (.natural 0)⟩, ⟨1, none, .INC (.natural 0)⟩] ⟨[], []⟩

/-- Two lines declaring the same label name `a`. -/
def dupLabelLines : List Line :=
  [⟨0, some (.label "a"), .INC (.natural 0)⟩,
   ⟨1, some (.label "a"), .INC (.natural 1)⟩]

/-- A machine whose only line is a `DECJZ` with an already-resolved line
target `Line(0)`, on the (zero) register `r0`. -/
def mDecjzLineTarget : Machine :=
  Machine.newFromLines [⟨0, none, .DECJZ (.natural 0) (.line 0)⟩] ⟨[], []⟩

/-- The memory `registers 0`. -/
def memZero : Memory := ⟨[[0]], []⟩

/-- The machine for the program `registers 0 / inc r0`. -/
def mUndoDemo : Machine :=
  Machine.newFromLines [⟨0, none, .INC (.natural 0)⟩] memZero

/-- `mUndoDemo` after one step: pointer `1`, register `r0` incremented. -/
def mUndoDemoStepped : Machine :=
  { mUndoDemo with currentLine := 1, memory := ⟨[[1]], []⟩ }

/-- The line numbers of the lines of a program declaring label `s`, in
program order (used to state which declaration the label table keeps). -/
def declaredLines (lines : List Line) (s : String) : List Nat :=
  lines.filterMap fun l =>
    if l.id = some (.label s) then some l.lineNumber else none

/-! Helper lemmas about `VecMap` and the label table. -/

theorem vmGet_cons (p : String × Nat) (ps : LabelMap) (s : String) :
    vmGet (p :: ps) s = if p.1 = s then some p.2 else vmGet ps s := rfl

theorem vmGet_vmUpdate (m : LabelMap) (k : String) (v : Nat) (s : String) :
    vmGet (vmUpdate m k v) s = if s = k then some v else vmGet m s := by
  induction m with
  | nil =>
    show (if k = s then some v else none) = if s = k then some v else none
    by_cases h : s = k
    · rw [if_pos h, if_pos h.symm]
    · rw [if_neg h, if_neg (Ne.symm h)]
  | cons p ps ih =>
    show vmGet (if p.1 = k then (p.1, v) :: ps else p :: vmUpdate ps k v) s = _
    by_cases hpk : p.1 = k
    · rw [if_pos hpk, vmGet_cons]
      by_cases hsk : s = k
      · rw [if_pos (hpk.trans hsk.symm), if_pos hsk]
      · have hps : ¬p.1 = s := fun hh => hsk (hh.symm.trans hpk)
        rw [if_neg hps, if_neg hsk, vmGet_cons, if_neg hps]
    · rw [if_neg hpk, vmGet_cons]
      by_cases hps : p.1 = s
      · have hsk : ¬s = k := fun hh => hpk (hps.trans hh)
        rw [if_pos hps, if_neg hsk, vmGet_cons, if_pos hps]
      · rw [if_neg hps, ih, vmGet_cons, if_neg hps]

theorem buildLabels_concat (ls : List Line) (l : Line) :
    Machine.buildLabels (ls ++ [l]) =
      Machine.recordLabel (Machine.buildLabels ls) l := by
  simp [Machine.buildLabels, List.foldl_append]

theorem vmGet_buildLabels (lines : List Line) (s : String) :
    vmGet (Machine.buildLabels lines) s = (declaredLines lines s).getLast? := by
  induction lines using List.reverseRecOn with
  | nil => rfl
  | append_singleton ls l ih =>
    rw [buildLabels_concat]
    have hdl : declaredLines (ls ++ [l]) s =
        declaredLines ls s ++ declaredLines [l] s := List.filterMap_append ..
    rw [hdl]
    cases hid : l.id with
    | none =>
      have h1 : declaredLines [l] s = [] := by simp [declaredLines, hid]
      rw [h1, List.append_nil]
      simp only [Machine.recordLabel, hid]
      exact ih
    | some id' =>
      cases id' with
      | line k =>
        have h1 : declaredLines [l] s = [] := by simp [declaredLines, hid]
        rw [h1, List.append_nil]
        simp only [Machine.recordLabel, hid]
        exact ih
      | halt =>
        have h1 : declaredLines [l] s = [] := by simp [declaredLines, hid]
        rw [h1, List.append_nil]
        simp only [Machine.recordLabel, hid]
        exact ih
      | label s' =>
        simp only [Machine.recordLabel, hid]
        by_cases hss : s' = s
        · have h1 : declaredLines [l] s = [l.lineNumber] := by
            simp [declaredLines, hid, hss]
          rw [h1, List.getLast?_concat, vmGet_vmUpdate, if_pos hss.symm]
        · have h1 : declaredLines [l] s = [] := by
            simp [declaredLines, hid, hss]
          rw [h1, List.append_nil, vmGet_vmUpdate,
            if_neg (fun hh : s = s' => hss hh.symm), ih]

/-! Helper lemmas about register values (the represented natural number). -/

theorem val_nil : Register.val [] = 0 := rfl

theorem val_cons (d : Nat) (ds : Register) :
    Register.val (d :: ds) = d + 2 ^ 128 * Register.val ds := rfl

theorem val_inc (l : Register) :
    Register.val (Register.inc l) = Register.val l + 1 := by
  induction l with
  | nil =>
    rw [show Register.inc [] = [1] from rfl, val_cons, val_nil]
    omega
  | cons d ds ih =>
    show Register.val (if d = U128MAX then 0 :: Register.inc ds else (d + 1) :: ds) = _
    by_cases hd : d = U128MAX
    · rw [if_pos hd, val_cons, val_cons, ih, hd]
      have h1 : 0 < 2 ^ 128 := Nat.two_pow_pos 128
      have h2 : 2 ^ 128 * (Register.val ds + 1)
          = 2 ^ 128 * Register.val ds + 2 ^ 128 := by ring
      unfold U128MAX
      omega
    · rw [if_neg hd, val_cons, val_cons]
      omega

theorem decCore_spec (l : Register) (h : 0 < Register.val l) :
    Register.val (Register.decCore l).1 = Register.val l - 1 ∧
      (Register.decCore l).2 = true := by
  induction l with
  | nil => rw [val_nil] at h; omega
  | cons d ds ih =>
    by_cases hd : d = 0
    · subst hd
      have hds : 0 < Register.val ds := by
        rw [val_cons] at h
        by_contra hc
        have h0 : Register.val ds = 0 := by omega
        rw [h0] at h
        omega
      obtain ⟨ih1, ih2⟩ := ih hds
      have hstep : Register.decCore (0 :: ds)
          = (U128MAX :: (Register.decCore ds).1, (Register.decCore ds).2) := by
        show (if (0 : Nat) = 0 then _ else _) = _
        rw [if_pos rfl]
      rw [hstep]
      refine ⟨?_, ih2⟩
      rw [val_cons, val_cons, ih1]
      have h1 : 0 < 2 ^ 128 := Nat.two_pow_pos 128
      have hx : Register.val ds = (Register.val ds - 1) + 1 := by omega
      have h2 : 2 ^ 128 * Register.val ds
          = 2 ^ 128 * (Register.val ds - 1) + 2 ^ 128 := by
        conv_lhs => rw [hx]
        ring
      unfold U128MAX
      omega
    · have hstep : Register.decCore (d :: ds) = ((d - 1) :: ds, true) := by
        show (if d = 0 then _ else _) = _
        rw [if_neg hd]
      rw [hstep]
      refine ⟨?_, rfl⟩
      rw [val_cons, val_cons]
      omega

theorem val_dropLast_of_getLast?_zero (l : Register) (h : l.getLast? = some 0) :
    Register.val l.dropLast = Register.val l := by
  induction l with
  | nil => simp at h
  | cons d ds ih =>
    cases ds with
    | nil =>
      have hd : d = 0 := by simpa [List.getLast?] using h
      subst hd
      rw [show ([0] : Register).dropLast = [] from rfl, val_nil, val_cons, val_nil]
      omega
    | cons e es =>
      have h2 : (e :: es).getLast? = some 0 := by
        rwa [List.getLast?_cons_cons] at h
      rw [List.dropLast_cons₂, val_cons, val_cons, ih h2]

theorem val_dec (l : Register) (h : 0 < Register.val l) :
    Register.val (Register.dec l) = Register.val l - 1 := by
  obtain ⟨h1, h2⟩ := decCore_spec l h
  show Register.val
    (if (Register.decCore l).2 ∧ (Register.decCore l).1.getLast? = some 0
      then (Register.decCore l).1.dropLast else (Register.decCore l).1) = _
  by_cases hz : (Register.decCore l).1.getLast? = some 0
  · rw [if_pos ⟨h2, hz⟩,
      val_dropLast_of_getLast?_zero _ hz, h1]
  · rw [if_neg (fun hh => hz hh.2), h1]

/-! Theorems settling the claims. -/

/-- C1: the claim says `Machine::new_from_lines` rewrites the jump target of
every `DECJZ` whose target is a declared label into a resolved line index.
Evaluating the constructor on a one-line program shows the opposite: the
instruction's target is still the unresolved label `loop`, and instead the
line's declared-label field has been overwritten with `Line(0)` by
`Line::change_id`. -/
theorem newFromLines_leaves_decjz_target_unresolved :
    (Machine.newFromLines
        [⟨0, some (.label "loop"), .DECJZ (.natural 0) (.label "loop")⟩]
        ⟨[], []⟩).lines
      = [⟨0, some (.line 0), .DECJZ (.natural 0) (.label "loop")⟩] := rfl

/-- C2: the claim says `go_to_identifier` on `Line(n)` succeeds when `n` is
at most the line count and fails with `LineNumberTooBig` when `n` exceeds
it.  On a one-line machine the code does the exact opposite: `Line(0)` and
`Line(1)` fail with `LineNumberTooBig`, while the out-of-range `Line(5)`
succeeds and sets the pointer to `5` (the comparison in the source is
inverted). -/
theorem goToIdentifier_line_bound_inverted :
    mOneInc.goToIdentifier (.line 0) = .error (.lineNumberTooBig 0 0) ∧
    mOneInc.goToIdentifier (.line 1) = .error (.lineNumberTooBig 1 0) ∧
    mOneInc.goToIdentifier (.line 5) = .ok { mOneInc with currentLine := 5 } :=
  ⟨rfl, rfl, rfl⟩

/-- C3: the claim says toggling a breakpoint twice at the same existing line
restores the breakpoint set and never aborts.  On a two-line machine the
first toggle of `Line(1)` adds breakpoint `1`, and the second toggle panics:
the source calls `Vec::remove` with the line number used as a position, and
index `1` is out of bounds for the one-element breakpoint vector. -/
theorem toggleBreakpoint_second_toggle_panics :
    mTwoInc.toggleBreakpoint (.line 1) = .ok { mTwoInc with breakpoints := [1] } ∧
    Machine.toggleBreakpoint { mTwoInc with breakpoints := [1] } (.line 1)
      = .panic :=
  ⟨rfl, rfl⟩

/-- C4 counterexample: the claim says construction fails with
`LabelAlreadyExists` when two lines declare the same label.
`Machine::new_from_lines` is infallible; on two lines both declaring label
`a` it returns a machine whose label table holds the later declaration. -/
theorem newFromLines_duplicate_labels_build_machine :
    (Machine.newFromLines dupLabelLines ⟨[], []⟩).labels = [("a", 1)] := rfl

/-- C4 amended: construction never fails; for every program and label name,
the label table built by `Machine::new_from_lines` maps the name to the
line number of the LAST line declaring it (`VecMap::update` overwrites),
and to nothing when no line declares it. -/
theorem newFromLines_labels_last_declaration_wins
    (lines : List Line) (mem : Memory) (s : String) :
    vmGet (Machine.newFromLines lines mem).labels s
      = (declaredLines lines s).getLast? :=
  vmGet_buildLabels lines s

/-- C5: the claim says a step at a `DECJZ` on a zero register changes the
pointer according to the jump target.  For the already-resolved target
`Line(0)` in a one-line machine the code instead panics: `step` unwraps
`go_to_identifier`, whose inverted bound rejects every in-range line. -/
theorem step_decjz_resolved_line_target_panics :
    mDecjzLineTarget.step = .panic := rfl

/-- C6: the claim says undo with no record fails with `CannotUndo` (which
holds), and that a recorded undo restores the pre-step state and clears the
record.  Evaluating the `tui` command path on `registers 0 / inc r0` shows
that after one recorded step, undo panics at the
`expect("Line number must be correct.")`: `go_to_identifier(Line(0))`
rejects the valid line 0, so no undo ever succeeds. -/
theorem undo_no_record_errors_and_undo_after_step_panics :
    undoCommand mUndoDemoStepped ⟨none, none⟩ = .cannotUndo ∧
    stepCommand mUndoDemo ⟨none, none⟩
      = (.ok (some .halted) mUndoDemoStepped, ⟨some 0, some memZero⟩) ∧
    undoCommand mUndoDemoStepped ⟨some 0, some memZero⟩ = .panic :=
  ⟨rfl, rfl, rfl⟩

/-- C7 counterexample: the claim says decrementing a zero-valued register
fails loudly rather than silently producing a different stored value.  On
the zero representation `[0]` the code silently stores the single digit
`u128::MAX`, changing the represented value from `0` to `2 ^ 128 - 1`. -/
theorem dec_zero_single_digit_silently_corrupts :
    Register.dec [0] = [2 ^ 128 - 1] ∧
    Register.val (Register.dec [0]) ≠ Register.val [0] :=
  ⟨rfl, by decide⟩

/-- C7 amended: decrementing a zero-valued register never asserts or
panics; the empty representation is left unchanged, while the single digit
`0` silently becomes the single digit `u128::MAX` (state corruption). -/
theorem dec_zero_representations_silent :
    Register.dec [] = [] ∧ Register.dec [0] = [2 ^ 128 - 1] :=
  ⟨rfl, rfl⟩

/-- C8: probing an index beyond the backing length of its namespace via
`Memory::is_zero` returns `true` and extends that backing sequence with
zero registers (`Register::from(0)`, i.e. `[0]`) up to and including the
probed index — so the probed index now holds an explicitly-initialised zero
register; probing an in-bounds index returns that register's
`Register::is_zero` and leaves the memory unchanged. -/
theorem isZero_read_spec (m : Memory) (r : RegisterNumber) :
    ((m.backing r).length ≤ r.index →
        (m.isZero r).1 = true ∧
        Memory.backing (m.isZero r).2 r
          = m.backing r
              ++ List.replicate (r.index + 1 - (m.backing r).length) [0] ∧
        (Memory.backing (m.isZero r).2 r).length = r.index + 1 ∧
        (Memory.backing (m.isZero r).2 r)[r.index]? = some [0]) ∧
    (r.index < (m.backing r).length →
        (m.isZero r).1 = Register.isZero ((m.backing r).getD (r.index) []) ∧
        (m.isZero r).2 = m) := by
  cases r with
  | natural n =>
    constructor
    · intro hlen
      have hlen' : m.natRegisters.length ≤ n := hlen
      have h0 : m.natRegisters[n]? = none := List.getElem?_eq_none hlen'
      simp only [Memory.isZero, h0, Memory.backing, RegisterNumber.index,
        Memory.createNewRegisters]
      refine ⟨trivial, trivial, ?_, ?_⟩
      · rw [List.length_append, List.length_replicate]
        omega
      · rw [List.getElem?_append_right hlen', List.getElem?_replicate,
          if_pos (by omega)]
    · intro hlt
      have hlt' : n < m.natRegisters.length := hlt
      have h0 : m.natRegisters[n]? = some m.natRegisters[n] :=
        List.getElem?_eq_getElem hlt'
      simp only [Memory.isZero, h0, Memory.backing, RegisterNumber.index]
      refine ⟨?_, trivial⟩
      have hgd : m.natRegisters.getD n [] = m.natRegisters[n] := by
        rw [List.getD_eq_getElem?_getD, h0]
        rfl
      rw [hgd]
      rcases hreg : m.natRegisters[n] with _ | ⟨d, _ | ⟨e, ds⟩⟩
      · rw [if_pos (by simp)]
      · rw [if_pos (by simp)]
      · rw [if_neg (by simp)]
        simp [Register.isZero]
  | negative n =>
    constructor
    · intro hlen
      have hlen' : m.negRegisters.length ≤ n := hlen
      have h0 : m.negRegisters[n]? = none := List.getElem?_eq_none hlen'
      simp only [Memory.isZero, h0, Memory.backing, RegisterNumber.index,
        Memory.createNewRegisters]
      refine ⟨trivial, trivial, ?_, ?_⟩
      · rw [List.length_append, List.length_replicate]
        omega
      · rw [List.getElem?_append_right hlen', List.getElem?_replicate,
          if_pos (by omega)]
    · intro hlt
      have hlt' : n < m.negRegisters.length := hlt
      have h0 : m.negRegisters[n]? = some m.negRegisters[n] :=
        List.getElem?_eq_getElem hlt'
      simp only [Memory.isZero, h0, Memory.backing, RegisterNumber.index]
      refine ⟨?_, trivial⟩
      have hgd : m.negRegisters.getD n [] = m.negRegisters[n] := by
        rw [List.getD_eq_getElem?_getD, h0]
        rfl
      rw [hgd]
      rcases hreg : m.negRegisters[n] with _ | ⟨d, _ | ⟨e, ds⟩⟩
      · rw [if_pos (by simp)]
      · rw [if_pos (by simp)]
      · rw [if_neg (by simp)]
        simp [Register.isZero]

/-- C8 witness: both branches instantiated on the memory `[[5]]`: probing
the unallocated natural index `2` answers `true`, and probing the allocated
natural index `0` leaves the memory unchanged. -/
theorem isZero_read_spec_witness :
    (Memory.isZero ⟨[[5]], []⟩ (.natural 2)).1 = true ∧
    (Memory.isZero ⟨[[5]], []⟩ (.natural 0)).2 = ⟨[[5]], []⟩ :=
  ⟨((isZero_read_spec ⟨[[5]], []⟩ (.natural 2)).1 (by decide)).1,
   ((isZero_read_spec ⟨[[5]], []⟩ (.natural 0)).2 (by decide)).2⟩

/-- C9: on represented values, increment then decrement restores every
valid register value exactly, and decrement then increment restores every
valid nonzero register value (`Register::inc` / `Register::dec` are
mutually inverse). -/
theorem inc_dec_mutually_inverse (l : Register) (h : Register.valid l) :
    Register.val (Register.dec (Register.inc l)) = Register.val l ∧
    (0 < Register.val l →
      Register.val (Register.inc (Register.dec l)) = Register.val l) := by
  constructor
  · have hpos : 0 < Register.val (Register.inc l) := by rw [val_inc]; omega
    rw [val_dec _ hpos, val_inc]
    omega
  · intro hp
    rw [val_inc, val_dec _ hp]
    omega

/-- C9 witness: the inverse laws applied to the concrete register `[5]`. -/
theorem inc_dec_mutually_inverse_witness :
    Register.valid [5] ∧
    (Register.val (Register.dec (Register.inc [5])) = Register.val [5] ∧
      (0 < Register.val [5] →
        Register.val (Register.inc (Register.dec [5])) = Register.val [5])) :=
  ⟨by decide, inc_dec_mutually_inverse [5] (by decide)⟩

/-- C10: for every machine, `toggle_breakpoint` on the `Halt` identifier
hits the `unreachable!` arm and panics instead of returning a recoverable
error. -/
theorem toggleBreakpoint_halt_panics (m : Machine) :
    m.toggleBreakpoint .halt = .panic := rfl

end Remuir
